import Mathlib

/-!
Shallow embedding of the contentful-find-case-sensitive repository
(src/index.js, with the debug variants src/unnamed/part_001 and
src/unnamed/part_002 embedded where a claim refers to them).

JavaScript strings are modelled as lists of characters, JavaScript runtime
values (for entry field values) as the inductive type JSValue, and the
external rich-text renderer as a function parameter that may throw
(an Except result).
-/

namespace Contentful

/-- JavaScript strings, modelled as lists of characters. -/
abbrev Str := List Char

/-- JavaScript runtime values, as far as entry field values are concerned. -/
inductive JSValue where
  | vstr : Str → JSValue
  | vnum : Int → JSValue
  | vbool : Bool → JSValue
  | vnull : JSValue
  | vundefined : JSValue
  | varr : List JSValue → JSValue
  | vobj : List (Str × JSValue) → JSValue
deriving Repr

/-- JavaScript truthiness of a value. -/
def truthy : JSValue → Bool
  | .vstr s => !s.isEmpty
  | .vnum n => n != 0
  | .vbool b => b
  | .vnull => false
  | .vundefined => false
  | .varr _ => true
  | .vobj _ => true

/-- The test `typeof v === "object"` (true for objects, arrays and null). -/
def isObjectT : JSValue → Bool
  | .vobj _ => true
  | .varr _ => true
  | .vnull => true
  | _ => false

/-- The test `Array.isArray(v)`. -/
def isArrayV : JSValue → Bool
  | .varr _ => true
  | _ => false

/-- Property access `v[k]` (absent property reads as undefined). -/
def getProp (v : JSValue) (k : Str) : JSValue :=
  match v with
  | .vobj l =>
    match l.find? (fun p => p.1 == k) with
    | some p => p.2
    | none => .vundefined
  | _ => .vundefined

/-- The `k in v` operator (key existence on an object). -/
def hasKey (v : JSValue) (k : Str) : Bool :=
  match v with
  | .vobj l => l.any (fun p => p.1 == k)
  | _ => false

/-- `txt.slice(a, b)` for non-negative indices, as in the source. -/
def jsSlice (txt : Str) (a b : Nat) : Str :=
  (txt.take b).drop a

/-- The ellipsis marker used by the snippet maker. -/
def ellipsisMark : Str := ['…']

/-- src/index.js line 116: the snippet maker.
`makeSnippet term txt i` embeds `makeSnippet(txt, i)` with the global
search term passed explicitly. -/
def makeSnippet (term txt : Str) (i : Nat) : Str :=
  let pre := jsSlice txt (i - 30) i
  let post := jsSlice txt (i + term.length) (i + term.length + 30)
  (if 30 < i then ellipsisMark else []) ++ pre ++ ['['] ++ term ++ [']'] ++ post
    ++ (if i + term.length + 30 < txt.length then ellipsisMark else [])

/-- `txt.indexOf(pat)`: the first index at which `pat` occurs in `txt`
(none for JavaScript's -1). -/
def strIndexOf (txt pat : Str) : Option Nat :=
  match txt with
  | [] => if pat.isEmpty then some 0 else none
  | c :: rest =>
    if (c :: rest).take pat.length == pat then some 0
    else (strIndexOf rest pat).map (· + 1)

/-- `pat` occurs in `txt` at index `i`. -/
def occursAt (pat txt : Str) (i : Nat) : Prop :=
  (txt.drop i).take pat.length = pat

/-- `pat` occurs somewhere in `txt` (spec-level substring containment). -/
def Occurs (pat txt : Str) : Prop :=
  ∃ p q, txt = p ++ pat ++ q

theorem strIndexOf_some {txt pat : Str} {i : Nat} (h : strIndexOf txt pat = some i) :
    occursAt pat txt i ∧ ∀ j, j < i → ¬ occursAt pat txt j := by
  induction txt generalizing i with
  | nil =>
    unfold strIndexOf at h
    by_cases hp : pat.isEmpty
    · simp [hp] at h
      subst h
      constructor
      · simp [occursAt, List.isEmpty_iff.mp hp]
      · intro j hj; omega
    · simp [hp] at h
  | cons c rest ih =>
    unfold strIndexOf at h
    by_cases hc : (c :: rest).take pat.length == pat
    · simp [hc] at h
      subst h
      constructor
      · exact beq_iff_eq.mp hc
      · intro j hj; omega
    · simp [hc] at h
      obtain ⟨i', hi', hrec⟩ := h
      subst hrec
      obtain ⟨hocc, hmin⟩ := ih hi'
      constructor
      · simpa [occursAt] using hocc
      · intro j hj
        match j with
        | 0 =>
          intro habs
          exact hc (beq_iff_eq.mpr habs)
        | j' + 1 =>
          have : j' < i' := by omega
          simpa [occursAt] using hmin j' this

theorem strIndexOf_none {txt pat : Str} (h : strIndexOf txt pat = none) :
    ∀ j, ¬ occursAt pat txt j := by
  induction txt with
  | nil =>
    unfold strIndexOf at h
    by_cases hp : pat.isEmpty
    · simp [hp] at h
    · intro j habs
      apply hp
      unfold occursAt at habs
      cases pat with
      | nil => simp
      | cons a l => simp at habs
  | cons c rest ih =>
    unfold strIndexOf at h
    by_cases hc : (c :: rest).take pat.length == pat
    · simp [hc] at h
    · simp [hc] at h
      intro j habs
      match j with
      | 0 => exact hc (beq_iff_eq.mpr habs)
      | j' + 1 =>
        have := ih h j'
        exact this (by simpa [occursAt] using habs)

theorem occursAt_length_le {pat txt : Str} {i : Nat} (hne : pat ≠ [])
    (h : occursAt pat txt i) : i + pat.length ≤ txt.length := by
  unfold occursAt at h
  have hlen : ((txt.drop i).take pat.length).length = pat.length := by
    rw [h]
  rw [List.length_take, List.length_drop] at hlen
  have hpos : 0 < pat.length := List.length_pos.mpr hne
  omega

theorem occurs_iff_occursAt {pat txt : Str} :
    Occurs pat txt ↔ ∃ i, occursAt pat txt i := by
  constructor
  · rintro ⟨p, q, rfl⟩
    refine ⟨p.length, ?_⟩
    unfold occursAt
    rw [List.append_assoc, List.drop_left, List.take_left]
  · rintro ⟨i, hi⟩
    refine ⟨txt.take i, txt.drop (i + pat.length), ?_⟩
    unfold occursAt at hi
    have h2 : txt.drop i = pat ++ txt.drop (i + pat.length) := by
      conv_lhs => rw [← List.take_append_drop pat.length (txt.drop i)]
      rw [hi, List.drop_drop]
    calc txt = txt.take i ++ txt.drop i := (List.take_append_drop i txt).symm
      _ = txt.take i ++ (pat ++ txt.drop (i + pat.length)) := by rw [h2]
      _ = txt.take i ++ pat ++ txt.drop (i + pat.length) := by
          rw [List.append_assoc]

theorem occurs_iff_strIndexOf {pat txt : Str} :
    Occurs pat txt ↔ (strIndexOf txt pat).isSome = true := by
  rw [occurs_iff_occursAt]
  constructor
  · rintro ⟨i, hi⟩
    cases h : strIndexOf txt pat with
    | some k => simp
    | none => exact absurd hi (strIndexOf_none h i)
  · intro h
    cases hs : strIndexOf txt pat with
    | some k => exact ⟨k, (strIndexOf_some hs).1⟩
    | none => rw [hs] at h; simp at h

/-- The property key "nodeType". -/
def nodeTypeKey : Str := "nodeType".data

/-- The property key "content". -/
def contentKey : Str := "content".data

/-- src/index.js lines 39-45: the guard of case 2 of extractStringContent
(a non-localized rich-text document at the top of a field value). -/
def isRichTop (v : JSValue) : Bool :=
  truthy v && isObjectT v && !isArrayV v
    && truthy (getProp v nodeTypeKey) && truthy (getProp v contentKey)

/-- src/index.js lines 79-84: the guard of case 3a (a rich-text document
under the locale key; no Array.isArray test here, as in the source). -/
def isRichNested (v : JSValue) : Bool :=
  truthy v && isObjectT v
    && truthy (getProp v nodeTypeKey) && truthy (getProp v contentKey)

/-- src/index.js lines 29-110: extractStringContent.  The external rich-text
renderer (documentToPlainTextString) is passed as the parameter `render`;
a `.error` result models a throw, which the source catches and turns
into null. -/
def extractStringContent (render : JSValue → Except Unit Str)
    (fieldValue : JSValue) (fieldName : Str) (locale : Str) : Option Str :=
  match fieldValue with
  | .vstr s => some s
  | _ =>
    if isRichTop fieldValue then
      match render fieldValue with
      | .ok s => some s
      | .error _ => none
    else if truthy fieldValue && isObjectT fieldValue && !isArrayV fieldValue then
      if hasKey fieldValue locale then
        let value := getProp fieldValue locale
        if isRichNested value then
          match render value with
          | .ok s => some s
          | .error _ => none
        else
          match value with
          | .vstr s => some s
          | _ => none
      else none
    else none

/-- The command-line and environment configuration of one run:
search term, locale (defaulted to "en-US" by the CLI), and the
space/environment identifiers used for entry links. -/
structure Config where
  term : Str
  locale : Str
  spaceId : Str
  envId : Str

/-- An entry as returned by the API, with the parts the source reads:
`sysId` is entry.sys.id, `contentTypeId` is entry.sys.contentType?.sys.id
(none when the optional chain yields undefined), and `fields` is
entry.fields — `none` models a nullish `fields` on a malformed entry, on
which Object.entries / Object.keys throw. -/
structure Entry where
  sysId : Str
  contentTypeId : Option Str
  fields : Option (List (Str × JSValue))

/-- src/index.js line 149: `entry.sys.contentType?.sys.id || "Unknown"`. -/
def entryContentType (e : Entry) : Str :=
  match e.contentTypeId with
  | some s => if s.isEmpty then "Unknown".data else s
  | none => "Unknown".data

/-- src/index.js line 112: the deep link for an entry id. -/
def entryLink (spaceId envId id : Str) : Str :=
  "https://app.contentful.com/spaces/".data ++ spaceId
    ++ "/environments/".data ++ envId ++ "/entries/".data ++ id

/-- The row pushed for a match (src/index.js lines 147-154). -/
structure MatchRecord where
  id : Str
  contentType : Str
  fieldName : Str
  locale : Str
  link : Str
  snippet : Str
deriving Repr, DecidableEq

/-- src/index.js lines 124-163: processStringValue.  Returns the row pushed
(the source pushes onto `rows` and returns true exactly when
`value.indexOf(term)` is not -1). -/
def processStringValue (cfg : Config) (e : Entry) (fieldName value : Str) :
    Option MatchRecord :=
  match strIndexOf value cfg.term with
  | some idx =>
    some { id := e.sysId, contentType := entryContentType e,
           fieldName := fieldName, locale := cfg.locale,
           link := entryLink cfg.spaceId cfg.envId e.sysId,
           snippet := makeSnippet cfg.term value idx }
  | none => none

/-- src/index.js lines 198-223: the field loop of searchContentful for one
entry.  `if (value)` skips null and the empty string; a successful
processStringValue breaks out of the loop, so the rows contributed by one
entry are those of its first matching field. -/
def processEntryFields (cfg : Config) (render : JSValue → Except Unit Str)
    (e : Entry) : List (Str × JSValue) → List MatchRecord
  | [] => []
  | (fieldName, fieldValue) :: rest =>
    match extractStringContent render fieldValue fieldName cfg.locale with
    | some value =>
      if value.isEmpty then processEntryFields cfg render e rest
      else
        match processStringValue cfg e fieldName value with
        | some r => [r]
        | none => processEntryFields cfg render e rest
    | none => processEntryFields cfg render e rest

/-- src/index.js line 198: `Object.entries(entry.fields)` throws when
`fields` is nullish; searchContentful has no surrounding try/catch, so the
exception propagates. -/
def processEntry (cfg : Config) (render : JSValue → Except Unit Str)
    (e : Entry) : Except Unit (List MatchRecord) :=
  match e.fields with
  | none => .error ()
  | some fs => .ok (processEntryFields cfg render e fs)

/-- src/index.js lines 192-224: the entry loop over one page.  An exception
thrown for one entry aborts the whole loop (there is no per-entry
try/catch in searchContentful). -/
def processPage (cfg : Config) (render : JSValue → Except Unit Str) :
    List Entry → Except Unit (List MatchRecord)
  | [] => .ok []
  | e :: rest =>
    match processEntry cfg render e with
    | .error err => .error err
    | .ok rs =>
      match processPage cfg render rest with
      | .error err => .error err
      | .ok more => .ok (rs ++ more)

/-- Observable outcome of a run: the accumulated rows, the number of
getEntries requests issued, the cumulative number of entries received,
and the value of `skip` when the do-while loop exits. -/
structure RunStats where
  rows : List MatchRecord
  requests : Nat
  fetched : Nat
  finalSkip : Nat
deriving Repr, DecidableEq

/-- src/index.js lines 177-227: the do-while pagination loop from a given
`skip`.  The remote API is modelled by `fetchItems` (the items of the page
at a given skip) and the constant `total` it reports (the claims assume the
reported total does not change between pages).  `pageSize` is the literal
1000 of the source. -/
def searchFrom (cfg : Config) (render : JSValue → Except Unit Str)
    (fetchItems : Nat → List Entry) (total : Nat) (skip : Nat) :
    Except Unit RunStats :=
  match processPage cfg render (fetchItems skip) with
  | .error err => .error err
  | .ok pageRows =>
    if h : skip + 1000 < total then
      (searchFrom cfg render fetchItems total (skip + 1000)).map
        (fun s =>
          ⟨pageRows ++ s.rows, s.requests + 1,
           (fetchItems skip).length + s.fetched, s.finalSkip⟩)
    else
      .ok ⟨pageRows, 1, (fetchItems skip).length, skip + 1000⟩
termination_by total - skip
decreasing_by omega

/-- src/index.js lines 165-230: searchContentful (skip starts at 0). -/
def searchContentful (cfg : Config) (render : JSValue → Except Unit Str)
    (fetchItems : Nat → List Entry) (total : Nat) : Except Unit RunStats :=
  searchFrom cfg render fetchItems total 0

/-- The row pushed by the src/unnamed/part_001 variant (lines 245-250):
it records only id, fieldName, link and snippet. -/
structure DebugRecord where
  id : Str
  fieldName : Str
  link : Str
  snippet : Str
deriving Repr, DecidableEq

/-- src/unnamed/part_001 line 260: `rows.length && rows.at(-1).id === e.sys.id`. -/
def dedupeHit (e : Entry) (rows : List DebugRecord) : Bool :=
  match rows.getLast? with
  | some r => r.id == e.sysId
  | none => false

/-- The row pushed at src/unnamed/part_001 lines 245-250. -/
def mkDebugRecord (cfg : Config) (e : Entry) (fieldName value : Str)
    (idx : Nat) : DebugRecord :=
  { id := e.sysId, fieldName := fieldName,
    link := entryLink cfg.spaceId cfg.envId e.sysId,
    snippet := makeSnippet cfg.term value idx }

/-- src/unnamed/part_001 lines 206-261: the field loop of the debug variant,
threading the shared `rows` list.  A match pushes a row and breaks; every
fall-through path ends at the dedupe check of line 260, which breaks when
the last pushed row belongs to this entry. -/
def fieldsLoopDebug (cfg : Config) (render : JSValue → Except Unit Str)
    (e : Entry) (rows : List DebugRecord) :
    List (Str × JSValue) → List DebugRecord
  | [] => rows
  | (fieldName, fieldValue) :: rest =>
    match extractStringContent render fieldValue fieldName cfg.locale with
    | some value =>
      if value.isEmpty then
        if dedupeHit e rows then rows
        else fieldsLoopDebug cfg render e rows rest
      else
        match strIndexOf value cfg.term with
        | some idx => rows ++ [mkDebugRecord cfg e fieldName value idx]
        | none =>
          if dedupeHit e rows then rows
          else fieldsLoopDebug cfg render e rows rest
    | none =>
      if dedupeHit e rows then rows
      else fieldsLoopDebug cfg render e rows rest

/-- src/unnamed/part_001 lines 187-262: the entry loop of the debug variant.
The try block of lines 188-204 reads Object.keys(e.fields); on a malformed
entry (nullish `fields`) that throws, the catch logs and `continue`s, so the
entry is skipped and the loop moves on.  When the header read succeeds, the
field loop runs on the same fields object. -/
def entriesLoopDebug (cfg : Config) (render : JSValue → Except Unit Str)
    (rows : List DebugRecord) : List Entry → List DebugRecord
  | [] => rows
  | e :: rest =>
    match e.fields with
    | none => entriesLoopDebug cfg render rows rest
    | some fs =>
      entriesLoopDebug cfg render (fieldsLoopDebug cfg render e rows fs) rest

/-- src/index.js lines 13-16: the startup configuration check.  The three
environment variables are modelled as `Option Str` (none = unset, and an
unset or empty variable is falsy).  Returns true exactly when the source
throws its configuration error before any network activity. -/
def configCheckThrows (spaceId cpaToken environmentId : Option Str) : Bool :=
  let truthyEnv : Option Str → Bool := fun v =>
    match v with
    | some s => !s.isEmpty
    | none => false
  !truthyEnv spaceId || !truthyEnv cpaToken

/-! ## Shared concrete fixtures for witnesses -/

/-- A run configuration searching for "Foo" in the default locale. -/
def cfgFoo : Config :=
  ⟨"Foo".data, "en-US".data, "space1".data, "env1".data⟩

/-- A run configuration searching for "Foo" in the German locale. -/
def cfgDe : Config :=
  ⟨"Foo".data, "de-DE".data, "space1".data, "env1".data⟩

/-- A renderer that always throws. -/
def renderFail : JSValue → Except Unit Str := fun _ => .error ()

/-- A well-formed entry whose title field contains "Foo". -/
def goodEntry : Entry :=
  ⟨"good1".data, some "page".data,
   some [("title".data, .vstr "The Foo Pro".data)]⟩

/-- A malformed entry: its `fields` is nullish, so Object.entries and
Object.keys throw on it. -/
def badEntry : Entry :=
  ⟨"bad1".data, none, none⟩

/-- A well-formed entry with no fields at all. -/
def emptyEntry : Entry :=
  ⟨"empty1".data, some "page".data, some []⟩

/-! ## C5 -/

/-- C5: the claim says a missing space identifier, access token, or
environment identifier is each a fatal configuration error before any I/O.
The code (src/index.js line 15) tests only SPACE_ID and CPA_TOKEN, although
its own error message names ENVIRONMENT_ID as well: with SPACE_ID and
CPA_TOKEN set but ENVIRONMENT_ID unset, no configuration error is raised
and the program proceeds to create the client and issue requests. -/
theorem c5_environment_id_not_checked :
    configCheckThrows (some "space1".data) (some "token1".data) none = false
    ∧ configCheckThrows none (some "token1".data) (some "env1".data) = true
    ∧ configCheckThrows (some "space1".data) none (some "env1".data) = true := by
  refine ⟨rfl, rfl, rfl⟩

/-! ## C2 -/

/-- C2: for every matched string `txt` and zero-based match offset `i`, the
snippet equals an optional leading ellipsis (present iff `i` exceeds 30),
then the up-to-30 characters before the match, then the literal term
wrapped in square brackets, then the up-to-30 characters after the match,
then an optional trailing ellipsis (present iff more than 30 characters
follow the match in `txt`); in particular the bracket-wrapped term occurs
literally in the snippet. -/
theorem c2_snippet_shape (term txt : Str) (i : Nat) (hm : occursAt term txt i) :
    makeSnippet term txt i
      = (if 30 < i then ellipsisMark else [])
        ++ (txt.take i).drop (i - 30)
        ++ ['['] ++ term ++ [']']
        ++ (txt.drop (i + term.length)).take 30
        ++ (if 30 < txt.length - (i + term.length) then ellipsisMark else [])
    ∧ Occurs (['['] ++ term ++ [']']) (makeSnippet term txt i) := by
  have hpost : jsSlice txt (i + term.length) (i + term.length + 30)
      = (txt.drop (i + term.length)).take 30 := by
    unfold jsSlice
    rw [List.drop_take]
    congr 1
    omega
  have hpre : jsSlice txt (i - 30) i = (txt.take i).drop (i - 30) := rfl
  constructor
  · unfold makeSnippet
    rw [hpost, hpre]
    by_cases hc : i + term.length + 30 < txt.length
    · have hc2 : 30 < txt.length - (i + term.length) := by omega
      simp only [if_pos hc, if_pos hc2]
    · have hc2 : ¬ 30 < txt.length - (i + term.length) := by omega
      simp only [if_neg hc, if_neg hc2]
  · refine ⟨(if 30 < i then ellipsisMark else []) ++ jsSlice txt (i - 30) i,
      jsSlice txt (i + term.length) (i + term.length + 30)
        ++ (if i + term.length + 30 < txt.length then ellipsisMark else []),
      ?_⟩
    unfold makeSnippet
    simp [List.append_assoc]

/-- Witness for C2 at term "Foo", txt "The Foo Pro", offset 4 (the scenario
of the spec: no ellipses since the context fits in 30 characters). -/
theorem c2_snippet_shape_witness :
    makeSnippet "Foo".data "The Foo Pro".data 4
      = (if 30 < 4 then ellipsisMark else [])
        ++ (("The Foo Pro".data.take 4).drop (4 - 30))
        ++ ['['] ++ "Foo".data ++ [']']
        ++ (("The Foo Pro".data.drop (4 + "Foo".data.length)).take 30)
        ++ (if 30 < "The Foo Pro".data.length - (4 + "Foo".data.length)
            then ellipsisMark else [])
    ∧ Occurs (['['] ++ "Foo".data ++ [']'])
        (makeSnippet "Foo".data "The Foo Pro".data 4) :=
  c2_snippet_shape "Foo".data "The Foo Pro".data 4 rfl

/-! ## C10 -/

/-- C10: whenever processStringValue produces a MatchRecord, its snippet is
built by makeSnippet around the leftmost occurrence of the term in the
normalized field string (indexOf returns the first occurrence). -/
theorem c10_snippet_at_leftmost_occurrence (cfg : Config) (e : Entry)
    (fieldName value : Str) (r : MatchRecord)
    (h : processStringValue cfg e fieldName value = some r) :
    ∃ i, occursAt cfg.term value i
      ∧ (∀ j, j < i → ¬ occursAt cfg.term value j)
      ∧ r.snippet = makeSnippet cfg.term value i := by
  unfold processStringValue at h
  cases hidx : strIndexOf value cfg.term with
  | none => rw [hidx] at h; exact absurd h (by simp)
  | some idx =>
    rw [hidx] at h
    obtain ⟨hocc, hmin⟩ := strIndexOf_some hidx
    refine ⟨idx, hocc, hmin, ?_⟩
    have : r = { id := e.sysId, contentType := entryContentType e,
                 fieldName := fieldName, locale := cfg.locale,
                 link := entryLink cfg.spaceId cfg.envId e.sysId,
                 snippet := makeSnippet cfg.term value idx } := by
      simpa using h.symm
    rw [this]

/-- Witness for C10: the value "xxFooyyFoo" contains the term "Foo" twice;
the produced record's snippet is built around offset 2, the leftmost
occurrence. -/
theorem c10_snippet_at_leftmost_occurrence_witness :
    ∃ i, occursAt "Foo".data "xxFooyyFoo".data i
      ∧ (∀ j, j < i → ¬ occursAt "Foo".data "xxFooyyFoo".data j)
      ∧ ("xx[Foo]yyFoo".data : Str)
          = makeSnippet "Foo".data "xxFooyyFoo".data i :=
  c10_snippet_at_leftmost_occurrence cfgFoo goodEntry "title".data
    "xxFooyyFoo".data
    { id := "good1".data, contentType := "page".data,
      fieldName := "title".data, locale := "en-US".data,
      link := entryLink "space1".data "env1".data "good1".data,
      snippet := "xx[Foo]yyFoo".data }
    (by decide)

/-! ## C6 -/

/-- C6: the authoritative match test is case-sensitive.  For any entry the
coarse case-insensitive API pre-filter returned, and any normalized field
string, a MatchRecord is produced exactly when the term occurs in the
string with identical case: with term "Foo", a field string is matched
iff it literally contains "Foo" — containing only "foo" never matches. -/
theorem c6_match_is_case_sensitive (cfg : Config)
    (hterm : cfg.term = "Foo".data) (e : Entry) (fieldName value : Str) :
    (processStringValue cfg e fieldName value).isSome = true
      ↔ Occurs "Foo".data value := by
  rw [occurs_iff_strIndexOf]
  unfold processStringValue
  rw [hterm]
  cases strIndexOf value "Foo".data <;> simp

/-- Witness for C6: "it is foo here" (lowercase only) yields no record even
though the case-insensitive pre-filter would have returned its entry, while
"it is Foo here" yields one. -/
theorem c6_match_is_case_sensitive_witness :
    processStringValue cfgFoo goodEntry "title".data "it is foo here".data
        = none
    ∧ (processStringValue cfgFoo goodEntry "title".data
        "it is Foo here".data).isSome = true := by
  constructor
  · have h := c6_match_is_case_sensitive cfgFoo rfl goodEntry "title".data
      "it is foo here".data
    rw [occurs_iff_strIndexOf] at h
    cases hpsv : processStringValue cfgFoo goodEntry "title".data
        "it is foo here".data with
    | none => rfl
    | some r =>
      have hs := h.mp (by rw [hpsv]; rfl)
      have hno : strIndexOf "it is foo here".data "Foo".data = none := by decide
      rw [hno] at hs
      simp at hs
  · exact (c6_match_is_case_sensitive cfgFoo rfl goodEntry "title".data
      "it is Foo here".data).mpr (occurs_iff_strIndexOf.mpr (by decide))

/-! ## C7 -/

/-- C7: for a locale-map field value (an object that is not a rich-text
document, i.e. case 2's guard fails): when the requested locale is not a
key, normalize is absent; when the locale key holds a plain string, that
string is returned; when the locale key holds neither a string nor a
rich-text document, normalize is absent. -/
theorem c7_locale_map (render : JSValue → Except Unit Str)
    (m : List (Str × JSValue)) (fieldName locale : Str)
    (hnotrich : isRichTop (.vobj m) = false) :
    (hasKey (.vobj m) locale = false →
      extractStringContent render (.vobj m) fieldName locale = none)
    ∧ (∀ s, hasKey (.vobj m) locale = true →
        getProp (.vobj m) locale = .vstr s →
        extractStringContent render (.vobj m) fieldName locale = some s)
    ∧ (hasKey (.vobj m) locale = true →
        (∀ s, getProp (.vobj m) locale ≠ .vstr s) →
        isRichNested (getProp (.vobj m) locale) = false →
        extractStringContent render (.vobj m) fieldName locale = none) := by
  have hbase : truthy (.vobj m) && isObjectT (.vobj m) && !isArrayV (.vobj m)
      = true := rfl
  refine ⟨?_, ?_, ?_⟩
  · intro hkey
    simp only [extractStringContent, hnotrich, hbase, hkey]
    simp
  · intro s hkey hval
    simp only [extractStringContent, hnotrich, hkey, hval]
    simp [truthy, isObjectT, isArrayV, isRichNested]
  · intro hkey hnstr hnr
    simp only [extractStringContent, hnotrich, hbase, hkey, hnr]
    simp only [Bool.false_eq_true, if_false, if_true, Bool.true_eq_false]
    cases hv : getProp (.vobj m) locale with
    | vstr s => exact absurd hv (hnstr s)
    | vnum n => simp
    | vbool b => simp
    | vnull => simp
    | vundefined => simp
    | varr l => simp
    | vobj l => simp

/-- The spec's locale-map scenario: a field localized only to "en-US". -/
def mapEn : List (Str × JSValue) := [("en-US".data, .vstr "Hallo".data)]

/-- A locale map whose "en-US" value is a number (neither string nor rich
document). -/
def mapNum : List (Str × JSValue) := [("en-US".data, .vnum 5)]

/-- Witness for C7: locale "de-DE" absent from the map → absent; the
"en-US" string is returned for locale "en-US"; a numeric locale value is
absent. -/
theorem c7_locale_map_witness :
    extractStringContent renderFail (.vobj mapEn) "greeting".data
        "de-DE".data = none
    ∧ extractStringContent renderFail (.vobj mapEn) "greeting".data
        "en-US".data = some "Hallo".data
    ∧ extractStringContent renderFail (.vobj mapNum) "greeting".data
        "en-US".data = none := by
  refine ⟨?_, ?_, ?_⟩
  · exact (c7_locale_map renderFail mapEn "greeting".data "de-DE".data
      rfl).1 rfl
  · exact (c7_locale_map renderFail mapEn "greeting".data "en-US".data
      rfl).2.1 "Hallo".data rfl rfl
  · refine (c7_locale_map renderFail mapNum "greeting".data "en-US".data
      rfl).2.2 rfl ?_ rfl
    intro s h
    have hv : getProp (.vobj mapNum) "en-US".data = .vnum 5 := rfl
    rw [hv] at h
    exact JSValue.noConfusion h

/-! ## C8 -/

/-- C8: for a rich-text document (a value carrying a truthy node-type tag
and content list), whether it appears directly as the field value or under
the requested locale key of a locale map, normalize returns the renderer's
plain-text output, or absent when rendering throws; and a renderer failure
on one field never stops the field loop — the remaining fields of the same
entry are processed as if the failing field were not there. -/
theorem c8_rich_text_render (cfg : Config)
    (render : JSValue → Except Unit Str) (fieldName locale : Str) :
    (∀ fv, isRichTop fv = true →
      extractStringContent render fv fieldName locale = (render fv).toOption)
    ∧ (∀ m, isRichTop (.vobj m) = false →
        hasKey (.vobj m) locale = true →
        isRichNested (getProp (.vobj m) locale) = true →
        extractStringContent render (.vobj m) fieldName locale
          = (render (getProp (.vobj m) locale)).toOption)
    ∧ (∀ e name fv rest, isRichTop fv = true → render fv = .error () →
        processEntryFields cfg render e ((name, fv) :: rest)
          = processEntryFields cfg render e rest) := by
  have hrich : ∀ fv, isRichTop fv = true →
      extractStringContent render fv fieldName locale
        = (render fv).toOption := by
    intro fv hf
    cases fv with
    | vstr s => simp [isRichTop, isObjectT] at hf
    | vnum n => simp [isRichTop, isObjectT] at hf
    | vbool b => simp [isRichTop, isObjectT] at hf
    | vnull => simp [isRichTop, truthy] at hf
    | vundefined => simp [isRichTop, truthy] at hf
    | varr l => simp [isRichTop, isArrayV] at hf
    | vobj l =>
      simp only [extractStringContent, hf]
      cases render (.vobj l) <;> simp [Except.toOption]
  refine ⟨hrich, ?_, ?_⟩
  · intro m hnotrich hkey hnested
    have hbase : truthy (.vobj m) && isObjectT (.vobj m)
        && !isArrayV (.vobj m) = true := rfl
    simp only [extractStringContent, hnotrich, hbase, hkey, hnested]
    cases render (getProp (.vobj m) locale) <;>
      simp [Except.toOption, truthy, isObjectT, isArrayV]
  · intro e name fv rest hf hthrow
    have hx : extractStringContent render fv name cfg.locale
        = (render fv).toOption := by
      cases fv with
      | vstr s => simp [isRichTop, isObjectT] at hf
      | vnum n => simp [isRichTop, isObjectT] at hf
      | vbool b => simp [isRichTop, isObjectT] at hf
      | vnull => simp [isRichTop, truthy] at hf
      | vundefined => simp [isRichTop, truthy] at hf
      | varr l => simp [isRichTop, isArrayV] at hf
      | vobj l =>
        simp only [extractStringContent, hf]
        cases render (.vobj l) <;> simp [Except.toOption]
    rw [hthrow] at hx
    simp only [processEntryFields, hx]
    simp [Except.toOption]

/-- A well-formed rich-text document value. -/
def richDoc : JSValue :=
  .vobj [(nodeTypeKey, .vstr "document".data), (contentKey, .varr [])]

/-- Witness for C8: with a renderer that throws, a direct rich-text field
normalizes to absent, a localized rich-text field normalizes to absent, and
after the failing rich-text field the next field of the same entry is still
examined and produces its match. -/
theorem c8_rich_text_render_witness :
    extractStringContent renderFail richDoc "body".data "en-US".data = none
    ∧ extractStringContent renderFail (.vobj [("en-US".data, richDoc)])
        "body".data "en-US".data = none
    ∧ processEntryFields cfgFoo renderFail goodEntry
        [("body".data, richDoc), ("title".data, .vstr "a Foo b".data)]
      = processEntryFields cfgFoo renderFail goodEntry
        [("title".data, .vstr "a Foo b".data)] := by
  refine ⟨?_, ?_, ?_⟩
  · have h := (c8_rich_text_render cfgFoo renderFail "body".data
      "en-US".data).1 richDoc rfl
    rw [h]
    rfl
  · have h := (c8_rich_text_render cfgFoo renderFail "body".data
      "en-US".data).2.1 [("en-US".data, richDoc)] rfl rfl rfl
    rw [h]
    rfl
  · exact (c8_rich_text_render cfgFoo renderFail "body".data
      "en-US".data).2.2 goodEntry "body".data richDoc
      [("title".data, .vstr "a Foo b".data)] rfl rfl

/-! ## C1 -/

/-- A field yields a match iff its normalized value is a truthy (non-empty)
string in which the term occurs (the condition under which the source's
field loop pushes a row and breaks). -/
def fieldYields (cfg : Config) (render : JSValue → Except Unit Str)
    (field : Str × JSValue) : Bool :=
  match extractStringContent render field.2 field.1 cfg.locale with
  | some v => !v.isEmpty && (strIndexOf v cfg.term).isSome
  | none => false

theorem processEntryFields_length_le_one (cfg : Config)
    (render : JSValue → Except Unit Str) (e : Entry) :
    ∀ fs, (processEntryFields cfg render e fs).length ≤ 1 := by
  intro fs
  induction fs with
  | nil => simp [processEntryFields]
  | cons g rest ih =>
    obtain ⟨n, fv⟩ := g
    cases hx : extractStringContent render fv n cfg.locale with
    | none => simpa [processEntryFields, hx] using ih
    | some v =>
      cases hv : v.isEmpty with
      | true => simpa [processEntryFields, hx, hv] using ih
      | false =>
        cases hp : processStringValue cfg e n v with
        | some r => simp [processEntryFields, hx, hv, hp]
        | none => simpa [processEntryFields, hx, hv, hp] using ih

theorem processEntryFields_first_match (cfg : Config)
    (render : JSValue → Except Unit Str) (e : Entry) :
    ∀ pre n fv post v r,
      (∀ g ∈ pre, fieldYields cfg render g = false) →
      extractStringContent render fv n cfg.locale = some v →
      v.isEmpty = false →
      processStringValue cfg e n v = some r →
      processEntryFields cfg render e (pre ++ (n, fv) :: post) = [r] := by
  intro pre
  induction pre with
  | nil =>
    intro n fv post v r _ hx hne hp
    simp [processEntryFields, hx, hne, hp]
  | cons g pre ih =>
    intro n fv post v r hpre hx hne hp
    obtain ⟨gn, gv⟩ := g
    have hg : fieldYields cfg render (gn, gv) = false := hpre _ (by simp)
    have hrest : ∀ x ∈ pre, fieldYields cfg render x = false := by
      intro x hx2
      exact hpre x (by simp [hx2])
    have hmain := ih n fv post v r hrest hx hne hp
    unfold fieldYields at hg
    cases hgx : extractStringContent render gv gn cfg.locale with
    | none => simpa [processEntryFields, hgx] using hmain
    | some gval =>
      rw [hgx] at hg
      have hg2 : (!gval.isEmpty && (strIndexOf gval cfg.term).isSome)
          = false := hg
      cases hge : gval.isEmpty with
      | true => simpa [processEntryFields, hgx, hge] using hmain
      | false =>
        rw [hge] at hg2
        simp at hg2
        have hgp : processStringValue cfg e gn gval = none := by
          unfold processStringValue
          cases hgi : strIndexOf gval cfg.term with
          | none => rfl
          | some k => rw [hgi] at hg2; simp at hg2
        simpa [processEntryFields, hgx, hge, hgp] using hmain

/-- C1: the field loop of searchContentful produces at most one MatchRecord
per entry; when the fields are any prefix of non-matching fields followed
by a matching field, the produced record is exactly the one built from the
first matching field, and the fields after it are never examined (the
result does not depend on them). -/
theorem c1_one_record_per_entry (cfg : Config)
    (render : JSValue → Except Unit Str) (e : Entry) :
    (∀ fs, (processEntryFields cfg render e fs).length ≤ 1)
    ∧ (∀ pre f post,
        (∀ g ∈ pre, fieldYields cfg render g = false) →
        fieldYields cfg render f = true →
        (∃ v r, extractStringContent render f.2 f.1 cfg.locale = some v
          ∧ processStringValue cfg e f.1 v = some r
          ∧ processEntryFields cfg render e (pre ++ f :: post) = [r])
        ∧ (∀ post2, processEntryFields cfg render e (pre ++ f :: post2)
            = processEntryFields cfg render e (pre ++ f :: post))) := by
  refine ⟨processEntryFields_length_le_one cfg render e, ?_⟩
  intro pre f post hpre hf
  obtain ⟨n, fv⟩ := f
  unfold fieldYields at hf
  cases hx : extractStringContent render fv n cfg.locale with
  | none => rw [hx] at hf; simp at hf
  | some v =>
    rw [hx] at hf
    have hf2 : (!v.isEmpty && (strIndexOf v cfg.term).isSome) = true := hf
    cases hne : v.isEmpty with
    | true => rw [hne] at hf2; simp at hf2
    | false =>
      rw [hne] at hf2
      simp at hf2
      cases hidx : strIndexOf v cfg.term with
      | none => rw [hidx] at hf2; simp at hf2
      | some idx =>
        have hp : processStringValue cfg e n v
            = some { id := e.sysId, contentType := entryContentType e,
                     fieldName := n, locale := cfg.locale,
                     link := entryLink cfg.spaceId cfg.envId e.sysId,
                     snippet := makeSnippet cfg.term v idx } := by
          unfold processStringValue
          rw [hidx]
        constructor
        · exact ⟨v, _, rfl, hp,
            processEntryFields_first_match cfg render e pre n fv post v _
              hpre hx hne hp⟩
        · intro post2
          rw [processEntryFields_first_match cfg render e pre n fv post v _
              hpre hx hne hp,
            processEntryFields_first_match cfg render e pre n fv post2 v _
              hpre hx hne hp]

/-- Witness for C1: one non-matching field, then a matching title field,
then another field that would also match; the result is the single record
of the title field, and replacing everything after the title field leaves
the result unchanged. -/
theorem c1_one_record_per_entry_witness :
    (∃ v r,
      extractStringContent renderFail (.vstr "x Foo y".data) "title".data
          cfgFoo.locale = some v
      ∧ processStringValue cfgFoo goodEntry "title".data v = some r
      ∧ processEntryFields cfgFoo renderFail goodEntry
          ([("a".data, .vstr "nothing".data)]
            ++ ("title".data, .vstr "x Foo y".data)
            :: [("z".data, .vstr "also Foo".data)]) = [r])
    ∧ (∀ post2,
        processEntryFields cfgFoo renderFail goodEntry
          ([("a".data, .vstr "nothing".data)]
            ++ ("title".data, .vstr "x Foo y".data) :: post2)
        = processEntryFields cfgFoo renderFail goodEntry
            ([("a".data, .vstr "nothing".data)]
              ++ ("title".data, .vstr "x Foo y".data)
              :: [("z".data, .vstr "also Foo".data)])) :=
  (c1_one_record_per_entry cfgFoo renderFail goodEntry).2
    [("a".data, .vstr "nothing".data)]
    ("title".data, .vstr "x Foo y".data)
    [("z".data, .vstr "also Foo".data)]
    (by intro g hg; simp at hg; subst hg; rfl)
    rfl

/-! ## C9 -/

theorem processStringValue_locale {cfg : Config} {e : Entry} {n v : Str}
    {r : MatchRecord} (h : processStringValue cfg e n v = some r) :
    r.locale = cfg.locale := by
  unfold processStringValue at h
  cases hi : strIndexOf v cfg.term with
  | none => rw [hi] at h; simp at h
  | some idx =>
    rw [hi] at h
    injection h with h2
    rw [← h2]

theorem processEntryFields_rows_locale (cfg : Config)
    (render : JSValue → Except Unit Str) (e : Entry) :
    ∀ fs r, r ∈ processEntryFields cfg render e fs → r.locale = cfg.locale := by
  intro fs
  induction fs with
  | nil => intro r hr; simp [processEntryFields] at hr
  | cons g rest ih =>
    obtain ⟨n, fv⟩ := g
    intro r hr
    cases hx : extractStringContent render fv n cfg.locale with
    | none =>
      rw [show processEntryFields cfg render e ((n, fv) :: rest)
          = processEntryFields cfg render e rest by
        simp [processEntryFields, hx]] at hr
      exact ih r hr
    | some v =>
      cases hv : v.isEmpty with
      | true =>
        rw [show processEntryFields cfg render e ((n, fv) :: rest)
            = processEntryFields cfg render e rest by
          simp [processEntryFields, hx, hv]] at hr
        exact ih r hr
      | false =>
        cases hp : processStringValue cfg e n v with
        | none =>
          rw [show processEntryFields cfg render e ((n, fv) :: rest)
              = processEntryFields cfg render e rest by
            simp [processEntryFields, hx, hv, hp]] at hr
          exact ih r hr
        | some r0 =>
          rw [show processEntryFields cfg render e ((n, fv) :: rest) = [r0] by
            simp [processEntryFields, hx, hv, hp]] at hr
          simp at hr
          subst hr
          exact processStringValue_locale hp

theorem processPage_rows_locale (cfg : Config)
    (render : JSValue → Except Unit Str) :
    ∀ items rows, processPage cfg render items = .ok rows →
      ∀ r ∈ rows, r.locale = cfg.locale := by
  intro items
  induction items with
  | nil =>
    intro rows h r hr
    unfold processPage at h
    injection h with h2
    rw [← h2] at hr
    simp at hr
  | cons e rest ih =>
    intro rows h r hr
    unfold processPage at h
    cases hpe : processEntry cfg render e with
    | error err => rw [hpe] at h; simp at h
    | ok rs =>
      rw [hpe] at h
      cases hpp : processPage cfg render rest with
      | error err => rw [hpp] at h; simp at h
      | ok more =>
        rw [hpp] at h
        injection h with h2
        rw [← h2] at hr
        rcases List.mem_append.mp hr with hl | hm
        · unfold processEntry at hpe
          cases hef : e.fields with
          | none => rw [hef] at hpe; simp at hpe
          | some fs =>
            rw [hef] at hpe
            injection hpe with h3
            rw [← h3] at hl
            exact processEntryFields_rows_locale cfg render e fs r hl
        · exact ih more hpp r hm

theorem searchFrom_rows_locale (cfg : Config)
    (render : JSValue → Except Unit Str) (fetchItems : Nat → List Entry)
    (total : Nat) :
    ∀ n skip stats, total - skip ≤ n →
      searchFrom cfg render fetchItems total skip = .ok stats →
      ∀ r ∈ stats.rows, r.locale = cfg.locale := by
  intro n
  induction n with
  | zero =>
    intro skip stats hn hrun r hr
    rw [searchFrom.eq_def] at hrun
    cases hpp : processPage cfg render (fetchItems skip) with
    | error err => rw [hpp] at hrun; simp at hrun
    | ok pageRows =>
      rw [hpp] at hrun
      dsimp only at hrun
      have hlt : ¬ skip + 1000 < total := by omega
      rw [dif_neg hlt] at hrun
      injection hrun with h2
      rw [← h2] at hr
      exact processPage_rows_locale cfg render (fetchItems skip) pageRows
        hpp r hr
  | succ n ih =>
    intro skip stats hn hrun r hr
    rw [searchFrom.eq_def] at hrun
    cases hpp : processPage cfg render (fetchItems skip) with
    | error err => rw [hpp] at hrun; simp at hrun
    | ok pageRows =>
      rw [hpp] at hrun
      dsimp only at hrun
      by_cases hlt : skip + 1000 < total
      · rw [dif_pos hlt] at hrun
        cases hrec : searchFrom cfg render fetchItems total (skip + 1000) with
        | error err => rw [hrec] at hrun; simp [Except.map] at hrun
        | ok s =>
          rw [hrec] at hrun
          simp only [Except.map] at hrun
          injection hrun with h2
          rw [← h2] at hr
          simp only [RunStats.rows] at hr
          rcases List.mem_append.mp hr with hl | hm
          · exact processPage_rows_locale cfg render (fetchItems skip)
              pageRows hpp r hl
          · exact ih (skip + 1000) s (by omega) hrec r hm
      · rw [dif_neg hlt] at hrun
        injection hrun with h2
        rw [← h2] at hr
        exact processPage_rows_locale cfg render (fetchItems skip) pageRows
          hpp r hr

/-- C9: every MatchRecord produced by a run of searchContentful carries the
requested locale (the CLI locale, "en-US" by default), regardless of the
shape of the field that matched — processStringValue always stamps the
record with the configured locale. -/
theorem c9_record_locale_is_requested (cfg : Config)
    (render : JSValue → Except Unit Str) (fetchItems : Nat → List Entry)
    (total : Nat) (stats : RunStats)
    (h : searchContentful cfg render fetchItems total = .ok stats) :
    ∀ r ∈ stats.rows, r.locale = cfg.locale := by
  unfold searchContentful at h
  exact searchFrom_rows_locale cfg render fetchItems total (total - 0) 0
    stats (Nat.le_refl _) h

/-- The record produced for goodEntry in a "de-DE" run: the matched field
is a non-localized plain string, yet the record's locale is "de-DE". -/
def recDe : MatchRecord :=
  { id := "good1".data, contentType := "page".data,
    fieldName := "title".data, locale := "de-DE".data,
    link := entryLink "space1".data "env1".data "good1".data,
    snippet := "The [Foo] Pro".data }

/-- Witness for C9: a full run with requested locale "de-DE" over an entry
whose matching field is a plain (non-localized) string; the record's locale
is "de-DE". -/
theorem c9_record_locale_is_requested_witness : recDe.locale = "de-DE".data := by
  have hrun : searchContentful cfgDe renderFail (fun _ => [goodEntry]) 1
      = .ok ⟨[recDe], 1, 1, 1000⟩ := by
    unfold searchContentful
    rw [searchFrom.eq_def]
    rfl
  exact c9_record_locale_is_requested cfgDe renderFail (fun _ => [goodEntry])
    1 ⟨[recDe], 1, 1, 1000⟩ hrun recDe (by simp)

/-! ## C4 -/

/-- C4 counterexample: in src/index.js the entry loop has no try/catch, so
a failure while processing one entry (here: a malformed entry whose
`fields` is nullish, on which Object.entries throws at line 198) aborts
the whole page and the whole run — the remaining entries are lost, not
"skipped".  The same page without the malformed entry yields the good
entry's match, showing the abort discarded it. -/
theorem c4_failure_aborts_run_counterexample :
    processPage cfgFoo renderFail [badEntry, goodEntry] = .error ()
    ∧ searchContentful cfgFoo renderFail (fun _ => [badEntry, goodEntry]) 2
        = .error ()
    ∧ searchContentful cfgFoo renderFail (fun _ => [goodEntry]) 1
        = .ok ⟨[{ id := "good1".data, contentType := "page".data,
                  fieldName := "title".data, locale := "en-US".data,
                  link := entryLink "space1".data "env1".data "good1".data,
                  snippet := "The [Foo] Pro".data }], 1, 1, 1000⟩ := by
  refine ⟨rfl, ?_, ?_⟩
  · unfold searchContentful
    rw [searchFrom.eq_def]
    rfl
  · unfold searchContentful
    rw [searchFrom.eq_def]
    rfl

/-- C4 (amended): in the debug variant src/unnamed/part_001 a failure while
reading an entry's header (Object.keys throwing on a malformed entry inside
the try of lines 188-204) is caught and that entry is skipped, the loop
continuing with the remaining entries; in the canonical src/index.js driver
there is no per-entry catch and such a failure propagates out of the entry
loop, aborting the page. -/
theorem c4_entry_failure_behaviour (cfg : Config)
    (render : JSValue → Except Unit Str) :
    (∀ rows e rest, e.fields = none →
      entriesLoopDebug cfg render rows (e :: rest)
        = entriesLoopDebug cfg render rows rest)
    ∧ (∀ e rest, e.fields = none →
      processPage cfg render (e :: rest) = .error ()) := by
  constructor
  · intro rows e rest hef
    obtain ⟨sid, ct, f⟩ := e
    simp only at hef
    subst hef
    rfl
  · intro e rest hef
    obtain ⟨sid, ct, f⟩ := e
    simp only at hef
    subst hef
    rfl

/-- Witness for C4 (amended) at a concrete malformed entry: the part_001
loop skips it and still produces the good entry's record; the index.js
page loop errors out. -/
theorem c4_entry_failure_behaviour_witness :
    entriesLoopDebug cfgFoo renderFail [] [badEntry, goodEntry]
      = entriesLoopDebug cfgFoo renderFail [] [goodEntry]
    ∧ processPage cfgFoo renderFail [badEntry, goodEntry] = .error () :=
  ⟨(c4_entry_failure_behaviour cfgFoo renderFail).1 [] badEntry [goodEntry]
      rfl,
   (c4_entry_failure_behaviour cfgFoo renderFail).2 badEntry [goodEntry] rfl⟩

/-! ## C3 -/

theorem processPage_ok_of_wellformed (cfg : Config)
    (render : JSValue → Except Unit Str) :
    ∀ items : List Entry, (∀ e ∈ items, e.fields ≠ none) →
      ∃ rs, processPage cfg render items = .ok rs := by
  intro items
  induction items with
  | nil => exact fun _ => ⟨[], rfl⟩
  | cons e rest ih =>
    intro h
    obtain ⟨rs, hrs⟩ := ih (fun x hx => h x (List.mem_cons_of_mem _ hx))
    have he := h e (List.mem_cons_self _ _)
    cases hef : e.fields with
    | none => exact absurd hef he
    | some fs =>
      refine ⟨processEntryFields cfg render e fs ++ rs, ?_⟩
      unfold processPage processEntry
      rw [hef, hrs]

theorem searchFrom_pagination (cfg : Config)
    (render : JSValue → Except Unit Str) (fetchItems : Nat → List Entry)
    (total : Nat)
    (hlen : ∀ skip, (fetchItems skip).length = min 1000 (total - skip))
    (hok : ∀ skip, ∀ e ∈ fetchItems skip, e.fields ≠ none) :
    ∀ n skip, total - skip ≤ n → skip < total →
      ∃ stats, searchFrom cfg render fetchItems total skip = .ok stats
        ∧ stats.requests = (total - skip + 999) / 1000
        ∧ stats.fetched = total - skip
        ∧ total ≤ stats.finalSkip := by
  intro n
  induction n with
  | zero => intro skip hn hlt; omega
  | succ n ih =>
    intro skip hn hlt
    obtain ⟨rs, hrs⟩ := processPage_ok_of_wellformed cfg render
      (fetchItems skip) (hok skip)
    by_cases h2 : skip + 1000 < total
    · obtain ⟨s, hs, hreq, hfet, hfin⟩ := ih (skip + 1000) (by omega) (by omega)
      refine ⟨⟨rs ++ s.rows, s.requests + 1,
        (fetchItems skip).length + s.fetched, s.finalSkip⟩, ?_, ?_, ?_, ?_⟩
      · rw [searchFrom.eq_def, hrs]
        dsimp only
        rw [dif_pos h2, hs]
        rfl
      · simp only [RunStats.requests]
        omega
      · have hl := hlen skip
        simp only [RunStats.fetched]
        omega
      · exact hfin
    · refine ⟨⟨rs, 1, (fetchItems skip).length, skip + 1000⟩, ?_, ?_, ?_, ?_⟩
      · rw [searchFrom.eq_def, hrs]
        dsimp only
        rw [dif_neg h2]
      · simp only [RunStats.requests]
        omega
      · have hl := hlen skip
        simp only [RunStats.fetched]
        omega
      · simp only [RunStats.finalSkip]
        omega

/-- C3: with the API reporting a constant `total` and returning full pages
(min 1000 (total - skip) entries at offset skip) of well-formed entries,
the do-while loop of searchContentful issues exactly ceil(total/1000)
getEntries requests, at least one even when total is 0 (in which case the
result is the empty sequence); the cumulative number of entries received
across the pages equals `total`; and the loop exits with the skip offset
at or beyond `total`. -/
theorem c3_pagination_requests_and_total (cfg : Config)
    (render : JSValue → Except Unit Str) (fetchItems : Nat → List Entry)
    (total : Nat)
    (hlen : ∀ skip, (fetchItems skip).length = min 1000 (total - skip))
    (hok : ∀ skip, ∀ e ∈ fetchItems skip, e.fields ≠ none) :
    ∃ stats, searchContentful cfg render fetchItems total = .ok stats
      ∧ stats.requests = max 1 ((total + 999) / 1000)
      ∧ stats.fetched = total
      ∧ total ≤ stats.finalSkip
      ∧ (total = 0 → stats.rows = []) := by
  unfold searchContentful
  by_cases h0 : total = 0
  · subst h0
    have hempty : fetchItems 0 = [] := by
      have hl := hlen 0
      simpa using hl
    refine ⟨⟨[], 1, 0, 1000⟩, ?_, by norm_num, rfl, by norm_num, fun _ => rfl⟩
    rw [searchFrom.eq_def, hempty]
    rfl
  · obtain ⟨stats, hs, hreq, hfet, hfin⟩ := searchFrom_pagination cfg render
      fetchItems total hlen hok total 0 (by omega) (by omega)
    refine ⟨stats, hs, ?_, by simpa using hfet, hfin, fun h => absurd h h0⟩
    omega

/-- The page function of the C3 witness: a space of 2500 well-formed
entries served in pages of up to 1000. -/
def fetchC3 : Nat → List Entry :=
  fun skip => List.replicate (min 1000 (2500 - skip)) emptyEntry

/-- Witness for C3: total 2500 → exactly 3 requests
(max 1 (ceil 2500 / 1000)), 2500 entries received, final skip at least
2500. -/
theorem c3_pagination_requests_and_total_witness :
    ∃ stats,
      searchContentful cfgFoo renderFail fetchC3 2500 = .ok stats
      ∧ stats.requests = max 1 ((2500 + 999) / 1000)
      ∧ stats.fetched = 2500
      ∧ 2500 ≤ stats.finalSkip
      ∧ (2500 = 0 → stats.rows = []) :=
  c3_pagination_requests_and_total cfgFoo renderFail fetchC3 2500
    (fun skip => by simp [fetchC3])
    (fun skip e he => by
      have : e = emptyEntry := List.eq_of_mem_replicate he
      subst this
      intro hc
      cases hc)

end Contentful
